import Mathlib

/-!
Shallow embedding of `nirum_wsgi.py` (nirum-python-wsgi 0.2.3): the URI-template
matcher, rule ordering, request matching, CORS origin policy, dispatch, rpc and
error responses, together with theorems checking the specification's claims.

Strings are modelled as Lean `String` / `List Char`; Python `re` patterns are
modelled by the semantics of the exact pattern shapes the source compiles
(alternating literals and one-or-more character classes, anchored with `$`,
where `$` also matches just before a single trailing newline, as in Python).
Machinery external to the repository (the `json` module, `urllib.parse`,
the nirum codec) is modelled abstractly at its observable boundary.
-/

namespace NirumWsgi

/-! ### Basic string helpers (Python semantics on the ASCII inputs used here) -/

/-- Lexicographic comparison of character lists by code point, as Python `<` on `str`. -/
def strLtB : List Char → List Char → Bool
  | [], [] => false
  | [], _ :: _ => true
  | _ :: _, [] => false
  | a :: as, b :: bs =>
    if a.toNat < b.toNat then true
    else if a.toNat = b.toNat then strLtB as bs
    else false

def upperChar (c : Char) : Char :=
  if 'a' ≤ c ∧ c ≤ 'z' then Char.ofNat (c.toNat - 32) else c

/-- Python `str.upper()` restricted to ASCII. -/
def upperStr (s : String) : String := String.mk (s.data.map upperChar)

def lowerChar (c : Char) : Char :=
  if 'A' ≤ c ∧ c ≤ 'Z' then Char.ofNat (c.toNat + 32) else c

/-- Python `str.lower()` restricted to ASCII. -/
def lowerStr (s : String) : String := String.mk (s.data.map lowerChar)

/-- Python `str.lstrip('/')`. -/
def lstripSlash : List Char → List Char
  | '/' :: rest => lstripSlash rest
  | cs => cs

/-- Python `str.rstrip('_')`: remove every trailing underscore. -/
def rstripUnderscore (s : String) : String :=
  String.mk ((s.data.reverse.dropWhile (fun c => c == '_')).reverse)

/-- Python `', '.join(xs)`. -/
def joinComma : List String → String
  | [] => ""
  | [x] => x
  | x :: y :: xs => x ++ ", " ++ joinComma (y :: xs)

def isWS (c : Char) : Bool := c == ' ' || c == '\t' || c == '\n' || c == '\r'

/-- Python `str.strip()` (ASCII whitespace). -/
def stripWS (s : String) : String :=
  String.mk (((s.data.dropWhile isWS).reverse.dropWhile isWS).reverse)

/-- Split a character list on a separator character, Python `str.split(sep)`. -/
def splitOnChar (sep : Char) : List Char → List (List Char)
  | [] => [[]]
  | c :: rest =>
    let ps := splitOnChar sep rest
    if c == sep then [] :: ps
    else
      match ps with
      | [] => [[c]]
      | p :: pr => (c :: p) :: pr

/-! ### CPython `list.sort` model

`list.sort(key=k, reverse=True)` reverses the list, sorts ascending, and
reverses again.  For fewer than 64 elements timsort finds the initial
ascending run (or a strictly descending run, which it reverses) and then
binary-inserts each remaining element into the sorted head, using the
comparisons of the binary search below.  For a total-order key this equals
any stable sort; for a partial-order key (Python `frozenset` `<` is proper
subset) this is the exact behaviour for the short lists considered here. -/

/-- CPython binsort binary search: leftmost index `p` in `[l, r)` with
`pivot < xs[p]` according to the search path. -/
def binPosF (lt : α → α → Bool) (pivot : α) (xs : List α) : Nat → Nat → Nat → Nat
  | 0, l, _ => l
  | fuel + 1, l, r =>
    if l < r then
      match xs[(l + r) / 2]? with
      | some y =>
        if lt pivot y then binPosF lt pivot xs fuel l ((l + r) / 2)
        else binPosF lt pivot xs fuel ((l + r) / 2 + 1) r
      | none => l
    else l

def binPos (lt : α → α → Bool) (pivot : α) (xs : List α) (l r : Nat) : Nat :=
  binPosF lt pivot xs (r - l) l r

def insertAt (pos : Nat) (x : α) (xs : List α) : List α :=
  xs.take pos ++ x :: xs.drop pos

/-- Longest ascending run from `prev`: extend while not `next < prev`. -/
def ascRun (lt : α → α → Bool) : α → List α → List α × List α
  | prev, [] => ([prev], [])
  | prev, y :: rest =>
    if lt y prev then ([prev], y :: rest)
    else
      let (run, rem) := ascRun lt y rest
      (prev :: run, rem)

/-- Strictly descending run from `prev`, returned already reversed (ascending). -/
def descRun (lt : α → α → Bool) : α → List α → List α × List α
  | prev, [] => ([prev], [])
  | prev, y :: rest =>
    if lt y prev then
      let (run, rem) := descRun lt y rest
      (run ++ [prev], rem)
    else ([prev], y :: rest)

def initialRun (lt : α → α → Bool) : List α → List α × List α
  | [] => ([], [])
  | x :: rest =>
    match rest with
    | [] => ([x], [])
    | y :: rest2 =>
      if lt y x then
        let (run, rem) := descRun lt y rest2
        (run ++ [x], rem)
      else
        let (run, rem) := ascRun lt y rest2
        (x :: run, rem)

def binInsertAll (lt : α → α → Bool) : List α → List α → List α
  | acc, [] => acc
  | acc, x :: rest => binInsertAll lt (insertAt (binPos lt x acc 0 acc.length) x acc) rest

/-- Ascending stable sort, CPython timsort for short inputs. -/
def pySortAsc (lt : α → α → Bool) (xs : List α) : List α :=
  let (run, rem) := initialRun lt xs
  binInsertAll lt run rem

/-- `sorted(xs, key=…, reverse=True)`: reverse, sort ascending, reverse. -/
def pySortRev (lt : α → α → Bool) (xs : List α) : List α :=
  (pySortAsc lt xs.reverse).reverse

/-! ### Python `frozenset` comparison on name lists -/

def memStr (x : String) (xs : List String) : Bool := xs.any (fun y => x == y)

/-- Python `frozenset.issubset`. -/
def subB (a b : List String) : Bool := a.all (fun x => memStr x b)

/-- Python `frozenset.__lt__`: proper subset. -/
def ssubB (a b : List String) : Bool := subB a b && ! subB b a

/-! ### `UriTemplateMatcher`: template compilation

`VARIABLE_PATTERN = re.compile(r'\{([a-zA-Z0-9_-]+)\}')`, scanned over the
template with `finditer`; `make_name` maps hyphens to underscores;
`add_variable` rejects duplicates. -/

def varChar (c : Char) : Bool :=
  ('a' ≤ c && c ≤ 'z') || ('A' ≤ c && c ≤ 'Z') || ('0' ≤ c && c ≤ '9') || c == '_' || c == '-'

/-- Word characters of the query-string template regex class `[\w-]` (ASCII). -/
def wordChar (c : Char) : Bool := varChar c

/-- Parse a leading `\{[a-zA-Z0-9_-]+\}`, returning the name and the remainder. -/
def takeVar : List Char → Option (List Char × List Char)
  | '{' :: rest =>
    match rest.dropWhile varChar with
    | '}' :: tail =>
      if (rest.takeWhile varChar).isEmpty then none
      else some (rest.takeWhile varChar, tail)
    | _ => none
  | _ => none

def make_name (cs : List Char) : String :=
  String.mk (cs.map (fun c => if c == '-' then '_' else c))

/-- One-or-more character class element of a compiled pattern. -/
inductive Seg
  | lit : List Char → Seg
  | cap : String → (Char → Bool) → Seg

/-- The regex `.` without DOTALL: any character but a newline. -/
def reDot (c : Char) : Bool := !(c == '\n')

/-- The regex class `[^.]` used for origin wildcards. -/
def nonDot (c : Char) : Bool := !(c == '.')

/-- The regex class `[^&]` used for query-string values. -/
def nonAmp (c : Char) : Bool := !(c == '&')

/-- `parse_path_template`: literals alternating with `(?P<v>.+?)` captures;
the terminating `$` is part of the match semantics below.  The fuel only
bounds the recursion (every step consumes at least one character), so
`scanPath` below, which supplies ample fuel, is total and exact. -/
def scanPathF : Nat → List Char → List Char → List Seg × List String
  | 0, acc, _ => ([Seg.lit acc.reverse], [])
  | fuel + 1, acc, cs =>
    match cs with
    | [] => ([Seg.lit acc.reverse], [])
    | c :: rest =>
      match takeVar (c :: rest) with
      | some (name, tail) =>
        let v := make_name name
        let (segs, names) := scanPathF fuel [] tail
        (Seg.lit acc.reverse :: Seg.cap v reDot :: segs, v :: names)
      | none => scanPathF fuel (c :: acc) rest

def scanPath (acc cs : List Char) : List Seg × List String :=
  scanPathF (cs.length + 1) acc cs

/-- `parse_querystring_template`: `finditer` of `([\w-]+)=\{([a-zA-Z0-9_-]+)\}`,
yielding (key, variable) pairs left to right; fuel as in `scanPathF`. -/
def scanQSTemplateF : Nat → List Char → List (List Char × String)
  | 0, _ => []
  | fuel + 1, cs =>
    match cs with
    | [] => []
    | c :: rest =>
      if wordChar c then
        match (c :: rest).dropWhile wordChar with
        | '=' :: after2 =>
          match takeVar after2 with
          | some (name, tail) =>
            ((c :: rest).takeWhile wordChar, make_name name) :: scanQSTemplateF fuel tail
          | none => scanQSTemplateF fuel rest
        | _ => scanQSTemplateF fuel rest
      else scanQSTemplateF fuel rest

def scanQSTemplate (cs : List Char) : List (List Char × String) :=
  scanQSTemplateF (cs.length + 1) cs

/-- `add_variable`: every variable must not be duplicated. -/
def addVars : List String → List String → Except String (List String)
  | acc, [] => .ok acc
  | acc, v :: vs =>
    if memStr v acc then .error ("every variable must not be duplicated: " ++ v)
    else addVars (acc ++ [v]) vs

/-- Compiled `UriTemplateMatcher`: path pattern, query patterns, variable names
in order of addition. -/
structure Matcher where
  pathSegs : List Seg
  qsPatterns : List (List Char × String)
  names : List String

def buildMatcher (pathT : List Char) (qsT : Option (List Char)) : Except String Matcher :=
  let (segs, pnames) := scanPath [] pathT
  let qps := match qsT with | none => [] | some q => scanQSTemplate q
  match addVars [] (pnames ++ qps.map Prod.snd) with
  | .error e => .error e
  | .ok names => .ok ⟨segs, qps, names⟩

/-- `UriTemplateMatcher.__init__`: split the template at `?` (more than one is
an unpacking error), compile path and query patterns, reject duplicates. -/
def compileTemplate (uri_template : String) : Except String Matcher :=
  match splitOnChar '?' uri_template.data with
  | [pathT] => buildMatcher pathT none
  | [pathT, qsT] => buildMatcher pathT (some qsT)
  | _ => .error "template splits into more than two parts on ?"

/-! ### Matching -/

/-- The non-greedy capture loop of `(?P<v>X+?)` followed by the rest of the
pattern `m`: try one character, attempt the continuation, extend the capture
on failure — Python regex backtracking for a lazy one-or-more class. -/
def tryF (v : String) (ok : Char → Bool) (m : List Char → Option (List (String × String))) :
    List Char → List Char → Option (List (String × String))
  | _, [] => none
  | acc, c :: cs =>
    if ok c then
      match m cs with
      | some r => some ((v, String.mk (acc ++ [c])) :: r)
      | none => tryF v ok m (acc ++ [c]) cs
    else none

/-- Anchored match of a compiled pattern against the remaining input; the
final `[]` of the segment list stands at the pattern's `$`, which Python
matches at the end or just before one trailing newline.  The fuel counts
remaining segments (each step consumes one), so the wrapper `matchSegs`
with fuel `segs.length + 1` is total and exact, and its unfolding
equations hold definitionally. -/
def matchSegsF : Nat → List Seg → List Char → Option (List (String × String))
  | 0, _, _ => none
  | _ + 1, [], cs => if cs = [] ∨ cs = ['\n'] then some [] else none
  | fuel + 1, Seg.lit l :: rest, cs =>
    if l.isPrefixOf cs then matchSegsF fuel rest (cs.drop l.length) else none
  | fuel + 1, Seg.cap v ok :: rest, cs => tryF v ok (matchSegsF fuel rest) [] cs

def matchSegs (segs : List Seg) : List Char → Option (List (String × String)) :=
  matchSegsF (segs.length + 1) segs

theorem matchSegs_nil (cs : List Char) :
    matchSegs [] cs = if cs = [] ∨ cs = ['\n'] then some [] else none := rfl

theorem matchSegs_lit (l : List Char) (rest : List Seg) (cs : List Char) :
    matchSegs (Seg.lit l :: rest) cs =
      if l.isPrefixOf cs then matchSegs rest (cs.drop l.length) else none := rfl

theorem matchSegs_cap (v : String) (ok : Char → Bool) (rest : List Seg) (cs : List Char) :
    matchSegs (Seg.cap v ok :: rest) cs = tryF v ok (matchSegs rest) [] cs := rfl

/-- `UriTemplateMatcher.match_path`: `some` carries the captured
(name, value) pairs; a pattern with no variables yields `some []`. -/
def Matcher.match_path (m : Matcher) (path : List Char) : Option (List (String × String)) :=
  matchSegs m.pathSegs path

/-- Remainder of the query string after one `key=([^&]+)&?` match: drop the
greedy value run and one optional ampersand. -/
def afterVal (rest2 : List Char) : List Char :=
  match rest2.dropWhile nonAmp with
  | '&' :: t => t
  | t => t

/-- `finditer` of `key=(?P<v>[^&]+)&?` over the query string: at each
position try the pattern, on success continue after the match, otherwise
advance one character.  Returns the captured values in scan order.  The fuel
only bounds the recursion (every step consumes at least one character). -/
def scanQSF (key : List Char) : Nat → List Char → List String
  | 0, _ => []
  | fuel + 1, cs =>
    match cs with
    | [] => []
    | c :: cs2 =>
      if key.isPrefixOf (c :: cs2) then
        match (c :: cs2).drop key.length with
        | '=' :: rest2 =>
          match rest2.takeWhile nonAmp with
          | [] => scanQSF key fuel cs2
          | v1 :: vrest => String.mk (v1 :: vrest) :: scanQSF key fuel (afterVal rest2)
        | _ => scanQSF key fuel cs2
      else scanQSF key fuel cs2

def scanQS (key cs : List Char) : List String := scanQSF key (cs.length + 1) cs

/-- `UriTemplateMatcher.match_querystring`: collect every capture of every
query pattern; succeed iff the number of distinct captured names equals the
number of patterns. -/
def Matcher.match_querystring (m : Matcher) (qs : List Char) :
    Option (List (String × String)) :=
  let varList := (m.qsPatterns.map (fun kv => (scanQS kv.1 qs).map (fun v => (kv.2, v)))).flatten
  if ((varList.map Prod.fst).dedup).length = m.qsPatterns.length then some varList
  else none

/-- Value of one variable in a `UriTemplateMatchResult`. -/
inductive VarVal
  | null
  | single (s : String)
  | multi (vs : List String)
deriving Repr, DecidableEq

/-- `UriTemplateMatchResult.get_variable`: strip trailing underscores from the
name, collect all values bound to it; none → `null`, one → the value,
several → the list. -/
def get_variable (result : List (String × String)) (variable_name : String) : VarVal :=
  let vn := rstripUnderscore variable_name
  match (result.filter (fun p => p.1 == vn)).map Prod.snd with
  | [] => .null
  | [v] => .single v
  | v :: w :: vs => .multi (v :: w :: vs)

/-! ### Rules and `match_request` -/

/-- `UriTemplateRule`. -/
structure Rule where
  uri_template : String
  matcher : Matcher
  verb : String
  name : String

/-- `PathMatch`. -/
structure PathMatch where
  match_group : List (String × String)
  verb : String
  method_name : String
deriving Repr, DecidableEq

/-- `UriTemplateMatchResult.update` as called from `match_request`: the update
always fires there (the query-string result object is non-`None`), leaving the
chained captures — note a `None` path result becomes a (possibly empty) list,
i.e. truthy. -/
def updateVM (vm : Option (List (String × String))) (qsr : List (String × String)) :
    Option (List (String × String)) :=
  some (vm.getD [] ++ qsr)

/-- The `(variable_match, querystring_match)` pair one loop iteration of
`match_request` computes for a rule. -/
def candVM (path qs : List Char) (rule : Rule) :
    Option (List (String × String)) × Bool :=
  let vm0 := rule.matcher.match_path path
  if qs.isEmpty then (vm0, true)
  else
    match rule.matcher.match_querystring qs with
    | none => (vm0, false)
    | some qsr => (updateVM vm0 qsr, true)

/-- `if variable_match and querystring_match` of `match_request`. -/
def isCandidate (path qs : List Char) (rule : Rule) : Bool :=
  (candVM path qs rule).1.isSome && (candVM path qs rule).2

/-- One iteration of the `match_request` loop over `(match, matched_verb)`. -/
def ruleStep (request_method : String) (path qs : List Char)
    (st : Option PathMatch × List String) (rule : Rule) :
    Option PathMatch × List String :=
  let (vm, qsOk) := candVM path qs rule
  let verb := upperStr rule.verb
  if vm.isSome && qsOk then
    let verbs := st.2 ++ [verb]
    if (request_method == rule.verb || request_method == "OPTIONS") && st.1.isNone then
      (some ⟨vm.getD [], verb, rule.name⟩, verbs)
    else (st.1, verbs)
  else st

/-- The iteration order of `match_request`: recomputed on every request,
`sorted(rules, key=lambda x: x[1].names, reverse=True)` where the key is the
`frozenset` of variable names compared by proper inclusion. -/
def request_order (rules : List Rule) : List Rule :=
  pySortRev (fun a b => ssubB a.matcher.names b.matcher.names) rules

/-- `match_request`. -/
def match_request (rules : List Rule) (request_method path_info querystring : String) :
    Option PathMatch × Option (List String) :=
  if path_info == "/" then (none, none)
  else
    let st := (request_order rules).foldl
      (ruleStep request_method path_info.data querystring.data) (none, [])
    (st.1, some st.2)

/-! ### Service model

The generated nirum service metadata (`__nirum_service_methods__`,
`__nirum_method_annotations__`, `__nirum_method_names__`) is modelled as
explicit tables.  Types are abstract tokens carrying exactly what the source
inspects: identity for the codec, `NoneType`-ness and `is_optional_type`. -/

/-- A declared parameter or return type as the source observes it. -/
structure Ty where
  id : Nat
  isNoneType : Bool
  optional : Bool
deriving Repr, DecidableEq

structure ParamInfo where
  facialName : String
  behindName : String
  ty : Ty
deriving Repr, DecidableEq

structure MethodDef where
  name : String
  http_resource : Option (String × String)
  params : List ParamInfo
  returnTy : Ty
deriving Repr, DecidableEq

/-- The rule-construction loop of `WsgiApp.__init__`: root templates are
rejected, templates are compiled (duplicate variables abort), and the set of
behind-names of every parameter — optional or not — must be covered by the
template's variables. -/
def buildRulesAux : List MethodDef → Except String (List Rule)
  | [] => .ok []
  | m :: ms =>
    match m.http_resource with
    | none => buildRulesAux ms
    | some (path, verb) =>
      if (lstripSlash path.data).isEmpty then
        .error "the root resource is reserved; disallowed to route to the root"
      else
        match compileTemplate path with
        | .error e => .error e
        | .ok matcher =>
          let unsatisfied := (m.params.map (·.behindName)).filter
            (fun p => ! memStr p matcher.names)
          if ! unsatisfied.isEmpty then
            .error ("\"" ++ path ++ "\" does not fully satisfy all parameters of "
              ++ m.name ++ "() method; unsatisfied parameters are: "
              ++ joinComma (pySortAsc (fun a b => strLtB a.data b.data) unsatisfied.dedup))
          else
            match buildRulesAux ms with
            | .error e => .error e
            | .ok rest => .ok (⟨path, matcher, verb, m.name⟩ :: rest)

/-- `WsgiApp.__init__` rule construction followed by
`rules.sort(key=lambda rule: rule.uri_template, reverse=True)`. -/
def buildRules (methods : List MethodDef) : Except String (List Rule) :=
  match buildRulesAux methods with
  | .error e => .error e
  | .ok rules => .ok (pySortRev (fun a b => strLtB a.uri_template.data b.uri_template.data) rules)

/-! ### CORS origin policy -/

def hasStar (s : String) : Bool := s.data.any (fun c => c == '*')

/-- `self.allowed_origins`: literal domains, stripped and lowered. -/
def originLiterals (allowed : List String) : List String :=
  (allowed.filter (fun d => ! hasStar d)).map (fun d => lowerStr (stripWS d))

/-- `self.allowed_origin_patterns`: each wildcard domain split on `*`. -/
def originPieces (allowed : List String) : List (List (List Char)) :=
  (allowed.filter hasStar).map (fun d => splitOnChar '*' (lowerStr (stripWS d)).data)

/-- `'^' + '(?:[^.]+?)'.join(map(re.escape, pieces)) + '$'` compiled to
segments for the shared pattern matcher. -/
def originSegs : List (List Char) → List Seg
  | [] => []
  | p :: ps => Seg.lit p :: (ps.map (fun q => [Seg.cap "w" nonDot, Seg.lit q])).flatten

def schemeChar (c : Char) : Bool :=
  ('a' ≤ c && c ≤ 'z') || ('A' ≤ c && c ≤ 'Z') || ('0' ≤ c && c ≤ '9')
    || c == '+' || c == '-' || c == '.'

def isAlpha (c : Char) : Bool := ('a' ≤ c && c ≤ 'z') || ('A' ≤ c && c ≤ 'Z')

/-- `urllib.parse` removes tab, CR and LF from the URL before parsing. -/
def stripUrlChars (cs : List Char) : List Char :=
  cs.filter (fun c => !(c == '\n' || c == '\r' || c == '\t'))

/-- The URL text before the first colon. -/
def colonHead (cs : List Char) : List Char := cs.takeWhile (fun c => !(c == ':'))

/-- Whether the URL has a well-formed scheme before a colon. -/
def hasSchemeB (cs : List Char) : Bool :=
  match colonHead cs with
  | [] => false
  | s0 :: srest =>
    isAlpha s0 && (s0 :: srest).all schemeChar
      && !(cs.dropWhile (fun c => !(c == ':'))).isEmpty

/-- The parsed scheme, lowercased (empty when absent). -/
def schemeStr (cs : List Char) : String :=
  if hasSchemeB cs then String.mk ((colonHead cs).map lowerChar) else ""

/-- The URL after the scheme colon, when present. -/
def restChars (cs : List Char) : List Char :=
  if hasSchemeB cs then (cs.dropWhile (fun c => !(c == ':'))).drop 1 else cs

/-- The hostname characters of a netloc: up to a path/query/fragment
delimiter, after the userinfo `@`, and before the port colon. -/
def hostChars (netrest : List Char) : List Char :=
  (((netrest.takeWhile (fun c => !(c == '/' || c == '?' || c == '#'))).reverse.takeWhile
    (fun c => !(c == '@'))).reverse).takeWhile (fun c => !(c == ':'))

/-- `urllib.parse.urlparse` restricted to what `allows_origin` reads: the
scheme (lowered) and the hostname (lowered; `none` when there is no
`//netloc` or it has no host part). -/
def parseOrigin (origin : String) : String × Option String :=
  match restChars (stripUrlChars origin.data) with
  | '/' :: '/' :: netrest =>
    match hostChars netrest with
    | [] => (schemeStr (stripUrlChars origin.data), none)
    | c :: hs => (schemeStr (stripUrlChars origin.data),
        some (String.mk ((c :: hs).map lowerChar)))
  | _ => (schemeStr (stripUrlChars origin.data), none)

/-- Configuration of a `WsgiApp` plus its compiled rules. -/
structure WsgiApp where
  methods : List MethodDef
  behind_names : List (String × String)
  allowed_origins : List String
  allowed_headers : List String
  rules : List Rule

/-- `WsgiApp.allows_origin`: scheme must be http or https; the hostname must
equal a literal allowed domain or match a wildcard pattern.  A `none`
hostname matches nothing (in Python a configured wildcard pattern would
raise on `None`; that case is excluded by the theorems' hypotheses). -/
def allows_origin (app : WsgiApp) (origin : String) : Bool :=
  if !((parseOrigin origin).1 == "http" || (parseOrigin origin).1 == "https") then false
  else
    match (parseOrigin origin).2 with
    | none => false
    | some host =>
      if memStr host (originLiterals app.allowed_origins) then true
      else (originPieces app.allowed_origins).any
        (fun pieces => (matchSegs (originSegs pieces) host.data).isSome)

/-! ### Requests, JSON payloads and dispatch -/

/-- JSON-like values; Python `None` and JSON `null` are both `null`. -/
inductive JVal
  | null
  | bool (b : Bool)
  | num (n : Int)
  | str (s : String)
  | arr (xs : List JVal)
  | obj (fs : List (String × JVal))

/-- A request body as `parse_json_payload` observes it: empty (→ `{}`),
text that is not valid JSON (`InvalidJsonError`, carrying the text), or a
parsed JSON object. -/
inductive Body
  | empty
  | malformed (raw : String)
  | jsonObj (fs : List (String × JVal))

/-- `parse_json_payload`. -/
def parse_json_payload : Body → Except String (List (String × JVal))
  | .empty => .ok []
  | .malformed raw => .error raw
  | .jsonObj fs => .ok fs

/-- The WSGI environ fields the application reads. -/
structure Environ where
  request_method : String
  path_info : String
  query_string : String
  body : Body
  origin : Option String

/-- werkzeug query-string parsing for `request.args` (percent-escapes are not
used by the inputs considered here). -/
def url_decode_pairs (qs : List Char) : List (String × String) :=
  (splitOnChar '&' qs).filterMap (fun pair =>
    match pair with
    | [] => none
    | _ =>
      some (String.mk (pair.takeWhile (fun c => !(c == '='))),
        String.mk ((pair.dropWhile (fun c => !(c == '='))).drop 1)))

/-- `request.args.get(key)`: first value for the key, if any. -/
def argsGet (qs : String) (key : String) : Option String :=
  ((url_decode_pairs qs.data).find? (fun p => p.1 == key)).map Prod.snd

/-- Python dict update of one key. -/
def setKey (payload : List (String × JVal)) (k : String) (v : JVal) :
    List (String × JVal) :=
  if payload.any (fun p => p.1 == k) then
    payload.map (fun p => if p.1 == k then (k, v) else p)
  else payload ++ [(k, v)]

/-- `payload.update(**json_payload)`. -/
def updatePayload (payload : List (String × JVal)) (fs : List (String × JVal)) :
    List (String × JVal) :=
  fs.foldl (fun acc kv => setKey acc kv.1 kv.2) payload

def hasKey (payload : List (String × JVal)) (k : String) : Bool :=
  payload.any (fun p => p.1 == k)

def getKey (payload : List (String × JVal)) (k : String) : Option JVal :=
  (payload.find? (fun p => p.1 == k)).map Prod.snd

def varValToJ : VarVal → JVal
  | .null => .null
  | .single s => .str s
  | .multi vs => .arr (vs.map .str)

def findMethod (methods : List MethodDef) (name : String) : Option MethodDef :=
  methods.find? (fun m => m.name == name)

/-- `MethodDispatch`. -/
structure MethodDispatch where
  routed : Bool
  service_method : Option String
  payload : List (String × JVal)
  cors_headers : List (String × String)

/-- `MethodDispatchError`. -/
structure DispatchErr where
  status_code : Nat
  message : Option String

/-- The headers sorted and joined for `Access-Control-Allow-Headers`:
`', '.join(sorted(self.allowed_headers))` over the stripped, lowered set. -/
def allowedHeadersJoined (allowed_headers : List String) : List String :=
  pySortAsc (fun a b => strLtB a.data b.data)
    ((allowed_headers.map (fun h => lowerStr (stripWS h))).dedup)

/-- The tail of `dispatch_method`: the allowed-headers and origin CORS
headers appended after the per-branch headers. -/
def corsCommon (app : WsgiApp) (env : Environ) (cors1 : List (String × String)) :
    List (String × String) :=
  let cors2 :=
    if !(allowedHeadersJoined app.allowed_headers).isEmpty then
      cors1 ++ [("Access-Control-Allow-Headers",
        joinComma (allowedHeadersJoined app.allowed_headers))]
    else cors1
  match env.origin with
  | none => cors2
  | some o =>
    if allows_origin app o then cors2 ++ [("Access-Control-Allow-Origin", o)]
    else cors2

/-- The branch of `dispatch_method` that resolves the target and payload and
produces the per-branch CORS headers, given the `match_request` result. -/
def dispatchCore (app : WsgiApp) (env : Environ)
    (mr : Option PathMatch × Option (List String)) :
    Except DispatchErr (Option String × List (String × JVal) × List (String × String)) :=
  match mr.1 with
  | some pm =>
    let cors := [("Vary", "Origin"),
      ("Access-Control-Allow-Methods", joinComma ((mr.2.getD []) ++ ["OPTIONS"]))]
    let method_parameters : List String :=
      match findMethod app.methods pm.method_name with
      | some md => md.params.map (fun p => p.facialName)
      | none => []
    let payload0 := method_parameters.map
      (fun p => (rstripUnderscore p, varValToJ (get_variable pm.match_group p)))
    if pm.verb == "GET" || pm.verb == "DELETE" then
      .ok (some pm.method_name, payload0, cors)
    else
      match parse_json_payload env.body with
      | .error raw => .error ⟨400, some ("Invalid JSON payload: '" ++ raw ++ "'.")⟩
      | .ok fs => .ok (some pm.method_name, updatePayload payload0 fs, cors)
  | none =>
    if !(env.request_method == "POST" || env.request_method == "OPTIONS") then
      .error ⟨405, none⟩
    else
      let cors := [("Vary", "Origin"), ("Access-Control-Allow-Methods", "POST, OPTIONS")]
      match parse_json_payload env.body with
      | .error raw => .error ⟨400, some ("Invalid JSON payload: '" ++ raw ++ "'.")⟩
      | .ok fs => .ok (argsGet env.query_string "method", fs, cors)

/-- `WsgiApp.dispatch_method`. -/
def dispatch_method (app : WsgiApp) (env : Environ) : Except DispatchErr MethodDispatch :=
  let mr := match_request app.rules env.request_method env.path_info env.query_string
  match dispatchCore app env mr with
  | .error e => .error e
  | .ok (sm, payload, cors1) =>
    .ok ⟨mr.1.isSome, sm, payload, corsCommon app env cors1⟩

/-! ### Responses, errors, rpc and route -/

/-- A WSGI response: status code, headers, and a JSON body (`none` is the
empty body of the OPTIONS short-circuit). -/
structure Resp where
  status : Nat
  headers : List (String × String)
  body : Option JVal

/-- `werkzeug.http.HTTP_STATUS_CODES.get(status_code, 'http error')`,
restricted to the codes this application produces. -/
def http_status_text (n : Nat) : String :=
  if n = 200 then "OK"
  else if n = 400 then "Bad Request"
  else if n = 404 then "Not Found"
  else if n = 405 then "Method Not Allowed"
  else if n = 500 then "Internal Server Error"
  else "http error"

def statusTag (n : Nat) : String :=
  String.mk ((http_status_text n).data.map (fun c => if c == ' ' then '_' else lowerChar c))

/-- `WsgiApp.make_error_response`. -/
def make_error_response (error_type : String) (message : Option JVal) : JVal :=
  .obj [("_type", .str "error"), ("_tag", .str error_type),
    ("message", message.getD .null)]

def msgJ (message : Option String) : Option JVal := message.map .str

/-- `WsgiApp.error`: the canonical error envelope for a status code, with the
404/400/405 specific messages, and `message or status_code_text` otherwise. -/
def errorResp (status_code : Nat) (env : Environ) (message : Option String) : Resp :=
  let tag := statusTag status_code
  let body :=
    if status_code = 404 then
      make_error_response tag (some (.str ("The requested URL " ++ env.path_info
        ++ " was not found on this service.")))
    else if status_code = 400 then make_error_response tag (msgJ message)
    else if status_code = 405 then
      make_error_response tag (some (.str ("The requested URL " ++ env.path_info
        ++ " was not allowed HTTP method " ++ env.request_method ++ ".")))
    else
      make_error_response tag (some (.str
        (match message with
         | some m => if m == "" then http_status_text status_code else m
         | none => http_status_text status_code)))
  ⟨status_code, [("Content-type", "application/json")], some body⟩

/-- `WsgiApp._raw_response` with the default `make_response`. -/
def raw_response (status_code : Nat) (response_json : JVal) : Resp :=
  ⟨status_code, [("Content-type", "application/json")], some response_json⟩

/-- Handler return values: an abstract value or Python `None`. -/
abbrev Val := Nat

/-- Outcome of calling a service handler: a return value (possibly `None`) or
raising one of the procedure's declared error values. -/
inductive HOut
  | ret (v : Option Val)
  | declErr (e : Val)

/-- Result of `getattr(self.service, facial_name)`. -/
inductive HandlerAttr
  | absent
  | notCallable
  | fn (f : List (String × Option Val) → HOut)

structure Handlers where
  get : String → HandlerAttr

/-- The nirum codec (`serialize_meta` / `deserialize_meta`), abstract. -/
inductive DeRes
  | fail
  | ok (v : Option Val)

def DeRes.isOk : DeRes → Bool
  | .fail => false
  | .ok _ => true

structure Codec where
  ser : Option Val → JVal
  de : Ty → JVal → DeRes

/-- `is_optional_type`. -/
def is_optional_type (t : Ty) : Bool := t.optional

/-- `_get_argument_value`. -/
def get_argument_value (payload : List (String × JVal)) (key : String) (t : Ty) :
    Except String JVal :=
  if hasKey payload key || is_optional_type t then .ok ((getKey payload key).getD .null)
  else .error ("A argument named '" ++ key ++ "' is missing, it is required.")

/-- `WsgiApp._parse_procedure_arguments`. -/
def parse_procedure_arguments (cod : Codec) (params : List ParamInfo)
    (request_json : List (String × JVal)) : Except String (List (String × Option Val))
  := match params with
  | [] => .ok []
  | p :: ps =>
    match get_argument_value request_json p.behindName p.ty with
    | .error e => .error e
    | .ok data =>
      match cod.de p.ty data with
      | .fail => .error ("Incorrect type for '" ++ p.behindName ++ "'.")
      | .ok v =>
        match parse_procedure_arguments cod ps request_json with
        | .error e => .error e
        | .ok rest => .ok ((p.facialName, v) :: rest)

/-- `WsgiApp._check_return_type`. -/
def check_return_type (cod : Codec) (type_hint : Ty) (procedure_result : Option Val) :
    Bool :=
  match procedure_result with
  | none => type_hint.isNoneType || type_hint.optional
  | some v =>
    match cod.de type_hint (cod.ser (some v)) with
    | .fail => false
    | .ok _ => true

def hyphened (s : String) : String :=
  String.mk (s.data.map (fun c => if c == '_' then '-' else c))

def typeRepr (t : Ty) : String := "type<" ++ toString t.id ++ ">"

/-- The `ServerFault` message for a wrongly-shaped return value. -/
def wrongTypeMsg (service_method : String) (t : Ty) : String :=
  "The return type of the " ++ hyphened service_method ++ "() method is "
    ++ typeRepr t ++ ", but its server-side implementation has tried to return a "
    ++ "value of an invalid type.  It is an internal server error and should be "
    ++ "fixed by server-side."

/-- The `ServerFault` message for `None` returned for a non-optional type. -/
def noneForNonOptionalMsg (service_method : String) : String :=
  "The return type of " ++ hyphened service_method ++ "() method is not optional "
    ++ "(i.e., no trailing question mark), but its server-side implementation has "
    ++ "tried to return nothing (i.e., null, nil, None).  It is an internal server "
    ++ "error and should be fixed by server-side."

/-- The tail of `WsgiApp.rpc` from the handler's return on: the return-type
check, the two `ServerFault` messages, or the 200 response with the encoded
result. -/
def checkAndRespond (cod : Codec) (env : Environ) (service_method : String)
    (return_type : Ty) (result : Option Val) : Resp :=
  if check_return_type cod return_type result then
    raw_response 200 (cod.ser result)
  else
    let message :=
      if result.isNone then noneForNonOptionalMsg service_method
      else wrongTypeMsg service_method return_type
    errorResp 500 env (some message)

/-- Outcome of `WsgiApp.rpc`: a response, or the raised `ServiceMethodError`. -/
inductive RpcOut
  | resp (r : Resp)
  | methodErr

/-- `WsgiApp.rpc`.  Handlers are modelled as raising only declared errors. -/
def rpc (app : WsgiApp) (cod : Codec) (hnd : Handlers) (env : Environ)
    (service_method : String) (request_json : List (String × JVal)) : RpcOut :=
  match app.behind_names.find? (fun p => p.1 == service_method) with
  | none => .methodErr
  | some (_, facial) =>
    match hnd.get facial with
    | .absent => .resp (errorResp 400 env
        (some ("Service has no procedure '" ++ service_method ++ "'.")))
    | .notCallable => .resp (errorResp 400 env
        (some ("Remote procedure '" ++ service_method ++ "' is not callable.")))
    | .fn func =>
      let md := (findMethod app.methods facial).getD ⟨facial, none, [], ⟨0, false, false⟩⟩
      match parse_procedure_arguments cod md.params request_json with
      | .error e => .resp (errorResp 400 env (some e))
      | .ok args =>
        match func args with
        | .declErr e => .resp (raw_response 400 (cod.ser (some e)))
        | .ret result => .resp (checkAndRespond cod env service_method md.returnTy result)

/-- One step of the header merge in `route`: a CORS header is appended, or
joined with `', '` onto an existing header of the same name. -/
def mergeStep (hs : List (String × String)) (kv : String × String) :
    List (String × String) :=
  if hs.any (fun p => p.1 == kv.1) then
    hs.map (fun p => if p.1 == kv.1 then (p.1, p.2 ++ ", " ++ kv.2) else p)
  else hs ++ [kv]

/-- The header merge loop in `route`. -/
def mergeCors (headers : List (String × String)) (cors : List (String × String)) :
    List (String × String) :=
  cors.foldl mergeStep headers

/-- `WsgiApp.route`. -/
def route (app : WsgiApp) (cod : Codec) (hnd : Handlers) (env : Environ) : Resp :=
  match dispatch_method app env with
  | .error e => errorResp e.status_code env e.message
  | .ok m =>
    if env.request_method == "OPTIONS" then ⟨200, m.cors_headers, none⟩
    else
      match m.service_method with
      | some sm =>
        if sm == "" then errorResp 400 env (some "`method` is missing.")
        else
          match rpc app cod hnd env sm m.payload with
          | .methodErr => errorResp (if m.routed then 404 else 400) env
              (some ("No service method `" ++ sm ++ "` found."))
          | .resp r => ⟨r.status, mergeCors r.headers m.cors_headers, r.body⟩
      | none => errorResp 400 env (some "`method` is missing.")

/-! ### Characterization of the compiled-pattern matcher -/

/-- Declarative semantics of a compiled pattern: the input decomposes into the
literals and nonempty runs of class-satisfying characters, with Python's `$`
also accepting one trailing newline. -/
inductive Decomp : List Seg → List Char → Prop
  | nil : Decomp [] []
  | nl : Decomp [] ['\n']
  | lit {l rest cs} : Decomp rest cs → Decomp (Seg.lit l :: rest) (l ++ cs)
  | cap {v ok rest w cs} : w ≠ [] → (∀ c ∈ w, ok c = true) → Decomp rest cs →
      Decomp (Seg.cap v ok :: rest) (w ++ cs)

theorem tryF_isSome_iff (v : String) (ok : Char → Bool)
    (m : List Char → Option (List (String × String))) :
    ∀ (cs acc : List Char), (tryF v ok m acc cs).isSome ↔
      ∃ w cs2, cs = w ++ cs2 ∧ w ≠ [] ∧ (∀ c ∈ w, ok c = true) ∧ (m cs2).isSome := by
  intro cs
  induction cs with
  | nil =>
    intro acc
    constructor
    · intro h
      simp [tryF] at h
    · rintro ⟨w, cs2, heq, hw, -, -⟩
      exact absurd (List.append_eq_nil.mp heq.symm).1 hw
  | cons c cs ih =>
    intro acc
    simp only [tryF]
    by_cases hok : ok c = true
    · rw [if_pos hok]
      cases hm : m cs with
      | some r =>
        simp only [hm]
        constructor
        · intro _
          refine ⟨[c], cs, rfl, by simp, ?_, by simp [hm]⟩
          intro x hx
          simp only [List.mem_singleton] at hx
          subst hx
          exact hok
        · intro _
          simp
      | none =>
        simp only [hm]
        rw [ih (acc ++ [c])]
        constructor
        · rintro ⟨w, cs2, rfl, hw, hwok, hms⟩
          refine ⟨c :: w, cs2, by simp, by simp, ?_, hms⟩
          intro x hx
          rcases List.mem_cons.mp hx with rfl | hx2
          · exact hok
          · exact hwok x hx2
        · rintro ⟨w, cs2, heq, hw, hwok, hms⟩
          match w, hw with
          | cw :: w2, _ =>
            simp only [List.cons_append, List.cons.injEq] at heq
            obtain ⟨rfl, heq2⟩ := heq
            match w2 with
            | [] =>
              simp only [List.nil_append] at heq2
              rw [← heq2] at hms
              rw [hm] at hms
              simp at hms
            | c2 :: w3 =>
              exact ⟨c2 :: w3, cs2, heq2, by simp,
                fun x hx => hwok x (List.mem_cons_of_mem _ hx), hms⟩
    · rw [if_neg hok]
      constructor
      · intro h
        simp at h
      · rintro ⟨w, cs2, heq, hw, hwok, -⟩
        match w, hw with
        | cw :: w2, _ =>
          simp only [List.cons_append, List.cons.injEq] at heq
          obtain ⟨rfl, -⟩ := heq
          exact absurd (hwok c (by simp)) hok

/-- Soundness and completeness of the backtracking matcher against the
declarative decomposition semantics. -/
theorem matchSegs_isSome_iff : ∀ (segs : List Seg) (cs : List Char),
    (matchSegs segs cs).isSome ↔ Decomp segs cs := by
  intro segs
  induction segs with
  | nil =>
    intro cs
    rw [matchSegs_nil]
    constructor
    · intro h
      split at h
      case isTrue hcs =>
        rcases hcs with rfl | rfl
        · exact Decomp.nil
        · exact Decomp.nl
      case isFalse => simp at h
    · intro hd
      cases hd <;> simp
  | cons s rest ih =>
    cases s with
    | lit l =>
      intro cs
      rw [matchSegs_lit]
      constructor
      · intro h
        split at h
        case isTrue hp =>
          obtain ⟨cs2, rfl⟩ := List.isPrefixOf_iff_prefix.mp hp
          rw [List.drop_left] at h
          exact Decomp.lit ((ih _).mp h)
        case isFalse => simp at h
      · intro hd
        cases hd with
        | lit hrest =>
          rename_i cs2
          rw [if_pos (List.isPrefixOf_iff_prefix.mpr (List.prefix_append l cs2))]
          rw [List.drop_left]
          exact (ih cs2).mpr hrest
    | cap v ok =>
      intro cs
      rw [matchSegs_cap, tryF_isSome_iff]
      constructor
      · rintro ⟨w, cs2, rfl, hw, hwok, hms⟩
        exact Decomp.cap hw hwok ((ih cs2).mp hms)
      · intro hd
        cases hd with
        | cap hw hwok hrest =>
          rename_i w cs2
          exact ⟨w, cs2, rfl, hw, hwok, (ih cs2).mpr hrest⟩

/-! ### Concrete fixtures used by counterexamples and witnesses -/

def exceptIsOk : Except ε α → Bool
  | .ok _ => true
  | .error _ => false

def t0 : Ty := ⟨0, false, false⟩

/-- An optional (nullable) declared type. -/
def tOpt : Ty := ⟨1, false, true⟩

/-- Rule compiled from `/{zzz}` bound to GET for method `one`. -/
def ruleOne : Rule :=
  ⟨"/{zzz}", ⟨[Seg.lit ['/'], Seg.cap "zzz" reDot, Seg.lit []], [], ["zzz"]⟩, "GET", "one"⟩

/-- Rule compiled from `/a?x={p}&y={q}` bound to GET for method `two`. -/
def ruleTwo : Rule :=
  ⟨"/a?x={p}&y={q}", ⟨[Seg.lit ['/', 'a']], [(['x'], "p"), (['y'], "q")], ["p", "q"]⟩,
    "GET", "two"⟩

def mOne : MethodDef := ⟨"one", some ("/{zzz}", "GET"), [], t0⟩

def mTwo : MethodDef := ⟨"two", some ("/a?x={p}&y={q}", "GET"), [], t0⟩

def c1rules : List Rule := [ruleOne, ruleTwo]

/-- Matcher compiled from `/users/{id}`. -/
def usersMatcher : Matcher :=
  ⟨[Seg.lit "/users/".data, Seg.cap "id" reDot, Seg.lit []], [], ["id"]⟩

/-- Matcher compiled from `/search?q={term}`. -/
def searchMatcher : Matcher :=
  ⟨[Seg.lit "/search".data], [(['q'], "term")], ["term"]⟩

/-- Rule compiled from `/search?q={term}` bound to GET. -/
def searchRule : Rule := ⟨"/search?q={term}", searchMatcher, "GET", "search"⟩

/-! ### Claim C8 -/

/-- Claim C8 counterexample: the placeholder of `/users/{id}` compiles to the
non-greedy `.+?`, which matches slashes, so the path `/users/4/2` is accepted
with `id = "4/2"`; the claim's assertion that a placeholder consumes only
non-slash characters and that a path requiring a placeholder to span a slash
is rejected is false. -/
theorem c8_counterexample :
    compileTemplate "/users/{id}" = .ok usersMatcher ∧
      usersMatcher.match_path "/users/4/2".data = some [("id", "4/2")] :=
  ⟨rfl, rfl⟩

/-- Claim C8 (amended): a compiled path template matches a request path iff
the path decomposes into the template's literal pieces, matched exactly, and
nonempty placeholder captures of arbitrary non-newline characters — slashes
included — consuming the whole path to its end (Python's `$` also accepts a
single trailing newline); any path with leftover trailing text is rejected. -/
theorem c8_path_match_iff_decomposition (tpl : String) (m : Matcher)
    (hc : compileTemplate tpl = .ok m) (path : String) :
    (m.match_path path.data).isSome ↔ Decomp m.pathSegs path.data :=
  matchSegs_isSome_iff m.pathSegs path.data

/-- Witness for `c8_path_match_iff_decomposition` at the compiled template
`/users/{id}` and the path `/users/42`. -/
theorem c8_path_match_iff_decomposition_witness :
    compileTemplate "/users/{id}" = .ok usersMatcher ∧
      ((usersMatcher.match_path "/users/42".data).isSome ↔
        Decomp usersMatcher.pathSegs "/users/42".data) :=
  ⟨rfl, c8_path_match_iff_decomposition "/users/{id}" usersMatcher rfl "/users/42"⟩

/-! ### Claim C1 -/

/-- Claim C1 counterexample: `ruleOne` (template `/{zzz}`, one variable) and
`ruleTwo` (template `/a?x={p}&y={q}`, two variables) are the constructed rule
list; the iteration order of matching keeps the one-variable rule first —
the rule with more variables does not precede — and `GET /a?x=1&y=2` selects
method `one` even though `ruleTwo` is also a candidate whose verb matches,
contradicting the claimed more-variables-first iteration order. -/
theorem c1_counterexample :
    buildRules [mOne, mTwo] = .ok c1rules ∧
      c1rules.map (fun r => r.matcher.names.length) = [1, 2] ∧
      request_order c1rules = c1rules ∧
      (match_request c1rules "GET" "/a" "x=1&y=2").1 =
        some ⟨[("zzz", "a")], "GET", "one"⟩ ∧
      (match_request c1rules "GET" "/a" "x=1&y=2").2 = some ["GET", "GET"] :=
  ⟨rfl, rfl, rfl, rfl, rfl⟩

/-- Claim C1 (amended): matching re-sorts the rule list on every request with
Python's stable reverse sort keyed by the `frozenset` of variable names, whose
`<` is proper set inclusion — a partial order.  For a pair of rules this swaps
them iff the first rule's name set is a proper subset of the second's; rules
with incomparable or equal name sets stay in construction order (which is
reverse-lexicographic template text), so a rule with more variables does not
in general precede one with fewer. -/
theorem c1_request_order_pair (a b : Rule) :
    request_order [a, b] =
      if ssubB a.matcher.names b.matcher.names = true then [b, a] else [a, b] := by
  cases hlt : ssubB a.matcher.names b.matcher.names <;>
    simp [request_order, pySortRev, pySortAsc, initialRun, ascRun, descRun,
      binInsertAll, hlt]

/-! ### Claim C4 -/

/-- One `match_request` loop iteration, restated: a candidate always appends
its upper-cased verb; the selection is taken only when the raw verb equals the
request method (or the method is OPTIONS) and nothing was selected yet. -/
theorem ruleStep_eq (rm : String) (path qs : List Char)
    (st : Option PathMatch × List String) (r : Rule) :
    ruleStep rm path qs st r =
      if isCandidate path qs r then
        ((if (rm == r.verb || rm == "OPTIONS") && st.1.isNone then
            some ⟨(candVM path qs r).1.getD [], upperStr r.verb, r.name⟩
          else st.1),
         st.2 ++ [upperStr r.verb])
      else st := by
  rcases hc : candVM path qs r with ⟨vm, qsOk⟩
  simp only [ruleStep, isCandidate, hc]
  rcases st with ⟨m0, vs0⟩
  by_cases hcand : (vm.isSome && qsOk) = true
  · rw [if_pos hcand, if_pos hcand]
    by_cases hsel : ((rm == r.verb || rm == "OPTIONS") && m0.isNone) = true
    · rw [if_pos hsel, if_pos hsel]
    · rw [if_neg hsel, if_neg hsel]
  · rw [if_neg hcand, if_neg hcand]

/-- The `match_request` fold over any rule list: verbs of all candidates are
collected in order, and the selection is the first candidate satisfying the
verb test, never overridden afterwards. -/
theorem foldl_ruleStep (rm : String) (path qs : List Char) :
    ∀ (l : List Rule) (m0 : Option PathMatch) (vs0 : List String),
      l.foldl (ruleStep rm path qs) (m0, vs0) =
        ((match m0 with
          | some m => some m
          | none =>
            ((l.filter (isCandidate path qs)).find?
              (fun r => rm == r.verb || rm == "OPTIONS")).map
              (fun r => ⟨(candVM path qs r).1.getD [], upperStr r.verb, r.name⟩)),
         vs0 ++ (l.filter (isCandidate path qs)).map (fun r => upperStr r.verb)) := by
  intro l
  induction l with
  | nil =>
    intro m0 vs0
    cases m0 <;> simp
  | cons r l ih =>
    intro m0 vs0
    simp only [List.foldl_cons, ruleStep_eq]
    by_cases hc : isCandidate path qs r = true
    · rw [if_pos hc]
      cases m0 with
      | some m =>
        rw [ih]
        simp [List.filter_cons, hc]
      | none =>
        by_cases hsel : (rm == r.verb || rm == "OPTIONS") = true
        · simp only [hsel, Option.isNone_none, Bool.and_true, if_pos]
          rw [ih]
          simp [List.filter_cons, List.find?, hc, hsel]
        · simp only [hsel, Option.isNone_none, Bool.and_true, if_neg]
          rw [ih]
          simp [List.filter_cons, List.find?, hc, hsel]
    · rw [if_neg hc]
      rw [ih]
      simp [List.filter_cons, hc]

/-- Claim C4: for every request and rule list (off the root path), the first
candidate in iteration order whose raw verb equals the request method, or
reached when the method is OPTIONS, is the selected match; every candidate's
upper-cased verb is collected into the allowed-verbs list in order, and
candidates after the selection never change it. -/
theorem c4_first_candidate_selected (rules : List Rule) (rm path qs : String)
    (h : path ≠ "/") :
    match_request rules rm path qs =
      ((((request_order rules).filter (isCandidate path.data qs.data)).find?
          (fun r => rm == r.verb || rm == "OPTIONS")).map
          (fun r => ⟨(candVM path.data qs.data r).1.getD [], upperStr r.verb, r.name⟩),
       some (((request_order rules).filter (isCandidate path.data qs.data)).map
          (fun r => upperStr r.verb))) := by
  unfold match_request
  rw [if_neg (by simpa using h)]
  rw [foldl_ruleStep]
  simp

/-- Witness for `c4_first_candidate_selected` on the two concrete rules and
the request `GET /a?x=1&y=2`. -/
theorem c4_first_candidate_selected_witness :
    match_request c1rules "GET" "/a" "x=1&y=2" =
      ((((request_order c1rules).filter (isCandidate "/a".data "x=1&y=2".data)).find?
          (fun r => "GET" == r.verb || "GET" == "OPTIONS")).map
          (fun r => ⟨(candVM "/a".data "x=1&y=2".data r).1.getD [], upperStr r.verb, r.name⟩),
       some (((request_order c1rules).filter (isCandidate "/a".data "x=1&y=2".data)).map
          (fun r => upperStr r.verb))) :=
  c4_first_candidate_selected c1rules "GET" "/a" "x=1&y=2" (by decide)

/-! ### Claim C2 -/

theorem toFinset_map_const {α β : Type} [DecidableEq β] (l : List α) (b : β)
    (hl : l ≠ []) : (l.map (fun _ => b)).toFinset = {b} := by
  induction l with
  | nil => exact absurd rfl hl
  | cons x l ih =>
    cases l with
    | nil => simp
    | cons y l2 =>
      have h2 := ih (by simp)
      simp only [List.map_cons, List.toFinset_cons] at h2 ⊢
      rw [h2]
      simp

/-- The names captured by the query-string scan, as a set: exactly the
variables of the patterns whose key occurs at least once. -/
theorem qsNames_toFinset (qs : List Char) :
    ∀ pats : List (List Char × String),
      ((pats.map (fun kv => (scanQS kv.1 qs).map (fun v => (kv.2, v)))).flatten.map
         Prod.fst).toFinset
        = ((pats.filter (fun kv => !(scanQS kv.1 qs).isEmpty)).map Prod.snd).toFinset := by
  intro pats
  induction pats with
  | nil => simp
  | cons kv pats ih =>
    simp only [List.map_cons, List.flatten_cons, List.map_append, List.toFinset_append, ih,
      List.filter_cons]
    cases hscan : scanQS kv.1 qs with
    | nil => simp
    | cons v vs =>
      have hmap : ((v :: vs).map (fun w => (kv.2, w))).map Prod.fst
          = (v :: vs).map (fun _ => kv.2) := by
        simp [List.map_map, Function.comp]
      rw [hmap, toFinset_map_const (v :: vs) kv.2 (by simp)]
      simp only [hscan, List.isEmpty_cons, Bool.not_false, if_true]
      rw [List.map_cons, List.toFinset_cons, Finset.insert_eq]

/-- `match_querystring` succeeds iff every declared key is found at least once
by its scan, provided the declared variable names are distinct (which template
compilation enforces). -/
theorem match_querystring_isSome_iff (m : Matcher) (qs : List Char)
    (hnd : (m.qsPatterns.map Prod.snd).Nodup) :
    (m.match_querystring qs).isSome = true ↔
      ∀ kv ∈ m.qsPatterns, scanQS kv.1 qs ≠ [] := by
  have hsub : ((m.qsPatterns.filter (fun kv => !(scanQS kv.1 qs).isEmpty)).map
      Prod.snd).Nodup :=
    hnd.sublist ((List.filter_sublist m.qsPatterns).map Prod.snd)
  have hD : (((m.qsPatterns.map
        (fun kv => (scanQS kv.1 qs).map (fun v => (kv.2, v)))).flatten.map
        Prod.fst).dedup).length
      = (m.qsPatterns.filter (fun kv => !(scanQS kv.1 qs).isEmpty)).length := by
    rw [← List.card_toFinset, qsNames_toFinset qs m.qsPatterns,
      List.toFinset_card_of_nodup hsub, List.length_map]
  have hdef : m.match_querystring qs =
      if (((m.qsPatterns.map
          (fun kv => (scanQS kv.1 qs).map (fun v => (kv.2, v)))).flatten.map
          Prod.fst).dedup).length = m.qsPatterns.length then
        some ((m.qsPatterns.map (fun kv => (scanQS kv.1 qs).map (fun v => (kv.2, v)))).flatten)
      else none := rfl
  rw [hdef, hD]
  by_cases hc : (m.qsPatterns.filter
      (fun kv => !(scanQS kv.1 qs).isEmpty)).length = m.qsPatterns.length
  · rw [if_pos hc]
    simp only [Option.isSome_some, true_iff]
    intro kv hkv
    have := List.filter_length_eq_length.mp hc kv hkv
    simpa [List.isEmpty_iff] using this
  · rw [if_neg hc]
    constructor
    · intro h
      exact absurd h (by simp)
    · intro hall
      exact (hc (List.filter_length_eq_length.mpr (fun kv hkv => by
        simpa [List.isEmpty_iff] using hall kv hkv))).elim

/-- Claim C2 counterexample: the template `/search?q={term}` declares the
query key `q`; the request `GET /search` has an empty query string, where the
scan finds no `q` at all, yet `match_request` selects the rule (binding no
variables) because an empty query string bypasses query matching
(`if querystring:`) — the claim's example says this request does not match. -/
theorem c2_counterexample :
    compileTemplate "/search?q={term}" = .ok searchMatcher ∧
      scanQS ['q'] "".data = [] ∧
      (match_request [searchRule] "GET" "/search" "").1 =
        some ⟨[], "GET", "search"⟩ :=
  ⟨rfl, rfl, rfl⟩

/-- Claim C2 (amended): when the request's query string is non-empty, a rule
with declared query keys is a matching candidate only if every declared key is
found at least once by its pattern's scan; and when a declared key occurs
multiple times, all its values are captured as a list under that variable
(shown for `/search?q={term}` against `q=hello&q=bye`).  An empty query string
bypasses query matching entirely. -/
theorem c2_query_keys_required (r : Rule) (path qs : List Char)
    (hnd : (r.matcher.qsPatterns.map Prod.snd).Nodup) (hqs : qs ≠ []) :
    (isCandidate path qs r = true → ∀ kv ∈ r.matcher.qsPatterns, scanQS kv.1 qs ≠ []) ∧
      (match_request [searchRule] "GET" "/search" "q=hello&q=bye").1 =
        some ⟨[("term", "hello"), ("term", "bye")], "GET", "search"⟩ ∧
      get_variable [("term", "hello"), ("term", "bye")] "term" =
        .multi ["hello", "bye"] := by
  refine ⟨?_, rfl, rfl⟩
  intro hc kv hkv
  unfold isCandidate candVM at hc
  rw [if_neg (by simpa [List.isEmpty_iff] using hqs)] at hc
  cases hq : r.matcher.match_querystring qs with
  | none => rw [hq] at hc; simp at hc
  | some qsr =>
    have hqsome : (r.matcher.match_querystring qs).isSome = true := by
      rw [hq]; rfl
    exact (match_querystring_isSome_iff r.matcher qs hnd).mp hqsome kv hkv

/-- Witness for `c2_query_keys_required`: the `/search?q={term}` rule with the
non-empty query string `q=hello`. -/
theorem c2_query_keys_required_witness :
    (isCandidate "/search".data "q=hello".data searchRule = true →
      ∀ kv ∈ searchRule.matcher.qsPatterns, scanQS kv.1 "q=hello".data ≠ []) ∧
      (match_request [searchRule] "GET" "/search" "q=hello&q=bye").1 =
        some ⟨[("term", "hello"), ("term", "bye")], "GET", "search"⟩ ∧
      get_variable [("term", "hello"), ("term", "bye")] "term" =
        .multi ["hello", "bye"] :=
  c2_query_keys_required searchRule "/search".data "q=hello".data
    (by decide) (by decide)

/-! ### Claim C3 -/

def c3Echo : MethodDef :=
  ⟨"echo", some ("/echo/{a}", "GET"), [⟨"a", "a", t0⟩, ⟨"b", "b", tOpt⟩], t0⟩

def c3Mac : Matcher := ⟨[Seg.lit "/echo/".data, Seg.cap "a" reDot, Seg.lit []], [], ["a"]⟩

/-- Claim C3 counterexample: method `echo` has required parameter `a` and
optional parameter `b`; the template `/echo/{a}` binds every non-optional
parameter, yet construction aborts, because the source checks
`frozenset(service_methods[name]['_names'].values())`, which contains the
optional parameters too. -/
theorem c3_counterexample :
    compileTemplate "/echo/{a}" = .ok c3Mac ∧
      c3Echo.params.map (fun p => (p.behindName, p.ty.optional)) =
        [("a", false), ("b", true)] ∧
      memStr "a" c3Mac.names = true ∧
      buildRules [c3Echo] = .error
        ("\"/echo/{a}\" does not fully satisfy all parameters of echo() method; "
          ++ "unsatisfied parameters are: b") :=
  ⟨rfl, rfl, rfl, rfl⟩

/-- Claim C3 (amended): construction succeeds exactly when every annotated
method's template is off the root path, compiles (no duplicate variables),
and binds all of that method's parameters — optional parameters included;
leaving even an optional parameter unbound aborts construction. -/
theorem c3_construction_iff (methods : List MethodDef) :
    exceptIsOk (buildRules methods) = true ↔
      ∀ m ∈ methods, ∀ path verb, m.http_resource = some (path, verb) →
        (lstripSlash path.data).isEmpty = false ∧
        ∃ mac, compileTemplate path = .ok mac ∧
          ∀ p ∈ m.params, memStr p.behindName mac.names = true := by
  have hok : ∀ ms : List MethodDef,
      exceptIsOk (buildRules ms) = exceptIsOk (buildRulesAux ms) := by
    intro ms
    unfold buildRules
    cases buildRulesAux ms <;> rfl
  rw [hok]
  induction methods with
  | nil => simp [buildRulesAux, exceptIsOk]
  | cons m ms ih =>
    cases hres : m.http_resource with
    | none =>
      have hstep : buildRulesAux (m :: ms) = buildRulesAux ms := by
        simp only [buildRulesAux, hres]
      rw [hstep]
      refine ih.trans ⟨?_, ?_⟩
      · intro hall m2 hm2
        rcases List.mem_cons.mp hm2 with rfl | hm2tail
        · intro path verb hcontra
          rw [hres] at hcontra
          exact absurd hcontra (by simp)
        · exact hall m2 hm2tail
      · intro hall m2 hm2
        exact hall m2 (List.mem_cons_of_mem _ hm2)
    | some pv =>
      obtain ⟨path, verb⟩ := pv
      by_cases hroot : (lstripSlash path.data).isEmpty = true
      · have hstep : buildRulesAux (m :: ms) =
            .error "the root resource is reserved; disallowed to route to the root" := by
          simp only [buildRulesAux, hres]
          rw [if_pos hroot]
        rw [hstep]
        refine iff_of_false (by simp [exceptIsOk]) ?_
        intro hall
        obtain ⟨h1, -⟩ := hall m (by simp) path verb hres
        rw [hroot] at h1
        exact absurd h1 (by simp)
      · cases hct : compileTemplate path with
        | error e =>
          have hstep : buildRulesAux (m :: ms) = .error e := by
            simp only [buildRulesAux, hres]
            rw [if_neg hroot, hct]
          rw [hstep]
          refine iff_of_false (by simp [exceptIsOk]) ?_
          intro hall
          obtain ⟨-, mac, hmac, -⟩ := hall m (by simp) path verb hres
          rw [hct] at hmac
          exact absurd hmac (by simp)
        | ok mac =>
          by_cases hun : ((m.params.map (fun p => p.behindName)).filter
              (fun p => ! memStr p mac.names)).isEmpty = true
          · have hstep : buildRulesAux (m :: ms) =
                (match buildRulesAux ms with
                 | .error e => .error e
                 | .ok rest => .ok (⟨path, mac, verb, m.name⟩ :: rest)) := by
              simp only [buildRulesAux, hres]
              rw [if_neg hroot, hct]
              simp only [hun, Bool.not_true, Bool.false_eq_true, if_false]
            have hsame : exceptIsOk (buildRulesAux (m :: ms))
                = exceptIsOk (buildRulesAux ms) := by
              rw [hstep]
              cases buildRulesAux ms <;> rfl
            rw [hsame]
            have hparams : ∀ p ∈ m.params, memStr p.behindName mac.names = true := by
              intro p hp
              have hnil := List.isEmpty_iff.mp hun
              by_contra hmem
              have hin : p.behindName ∈ (m.params.map (fun q => q.behindName)).filter
                  (fun q => ! memStr q mac.names) := by
                rw [List.mem_filter]
                refine ⟨List.mem_map_of_mem _ hp, ?_⟩
                simp only [Bool.not_eq_true] at hmem
                simp [hmem]
              rw [hnil] at hin
              exact absurd hin (by simp)
            refine ih.trans ⟨?_, ?_⟩
            · intro hall m2 hm2
              rcases List.mem_cons.mp hm2 with rfl | hm2tail
              · intro path2 verb2 heq
                rw [hres] at heq
                obtain ⟨rfl, rfl⟩ : path = path2 ∧ verb = verb2 := by
                  simpa using heq
                refine ⟨by simpa using hroot, mac, hct, hparams⟩
              · exact hall m2 hm2tail
            · intro hall m2 hm2
              exact hall m2 (List.mem_cons_of_mem _ hm2)
          · have hunb : ((m.params.map (fun p => p.behindName)).filter
                (fun p => ! memStr p mac.names)).isEmpty = false := by
              cases h2 : ((m.params.map (fun p => p.behindName)).filter
                  (fun p => ! memStr p mac.names)).isEmpty
              · rfl
              · exact absurd h2 hun
            have hstep : exceptIsOk (buildRulesAux (m :: ms)) = false := by
              simp only [buildRulesAux, hres]
              rw [if_neg hroot, hct]
              simp only [hunb, Bool.not_false, if_true]
              rfl
            rw [hstep]
            refine iff_of_false (by simp) ?_
            intro hall
            obtain ⟨-, mac2, hmac2, hps⟩ := hall m (by simp) path verb hres
            rw [hct] at hmac2
            obtain rfl : mac = mac2 := by simpa using hmac2
            apply hun
            rw [List.isEmpty_iff, List.filter_eq_nil_iff]
            intro x hx
            obtain ⟨p, hp, rfl⟩ := List.mem_map.mp hx
            simp [hps p hp]

/-! ### Claim C6 -/

theorem lowerChar_eq_newline {c : Char} (h : lowerChar c = '\n') : c = '\n' := by
  unfold lowerChar at h
  split at h
  case isTrue hr =>
    exfalso
    obtain ⟨h1, h2⟩ := hr
    have a1 : 65 ≤ c.toNat := h1
    have a2 : c.toNat ≤ 90 := h2
    have hval : (Char.ofNat (c.toNat + 32)).toNat = c.toNat + 32 := by
      unfold Char.ofNat
      rw [dif_pos (by constructor; omega)]
      rfl
    rw [h] at hval
    have h10 : ('\n').toNat = 10 := rfl
    omega
  case isFalse => exact h

theorem hostChars_subset (netrest : List Char) : hostChars netrest ⊆ netrest := by
  intro c hc
  unfold hostChars at hc
  have h1 := (List.takeWhile_prefix (l := (((netrest.takeWhile
      (fun c => !(c == '/' || c == '?' || c == '#'))).reverse.takeWhile
      (fun c => !(c == '@'))).reverse)) (fun c => !(c == ':'))).subset hc
  rw [List.mem_reverse] at h1
  have h2 := (List.takeWhile_prefix (l := (netrest.takeWhile
      (fun c => !(c == '/' || c == '?' || c == '#'))).reverse) (fun c => !(c == '@'))).subset h1
  rw [List.mem_reverse] at h2
  exact (List.takeWhile_prefix (fun c => !(c == '/' || c == '?' || c == '#'))).subset h2

theorem restChars_subset (cs : List Char) : restChars cs ⊆ cs := by
  intro c hc
  unfold restChars at hc
  split at hc
  · exact (List.dropWhile_suffix (fun c => !(c == ':'))).subset
      ((List.drop_suffix 1 _).subset hc)
  · exact hc

theorem stripUrlChars_no_newline (cs : List Char) : '\n' ∉ stripUrlChars cs := by
  intro h
  rw [stripUrlChars, List.mem_filter] at h
  simp at h

theorem parseOrigin_no_newline (origin scheme host : String)
    (hp : parseOrigin origin = (scheme, some host)) : '\n' ∉ host.data := by
  unfold parseOrigin at hp
  split at hp
  case _ netrest heq =>
    split at hp
    case _ hhost => exact absurd hp (by simp)
    case _ c hs hhost =>
      simp only [Prod.mk.injEq, Option.some.injEq] at hp
      obtain ⟨-, rfl⟩ := hp
      intro hmem
      obtain ⟨c0, hc0, hlc⟩ := List.mem_map.mp hmem
      have hc0n : c0 = '\n' := lowerChar_eq_newline hlc
      subst hc0n
      have h1 : '\n' ∈ hostChars netrest := by rw [hhost]; exact hc0
      have h2 : '\n' ∈ ('/' :: '/' :: netrest : List Char) :=
        List.mem_cons_of_mem _ (List.mem_cons_of_mem _ (hostChars_subset netrest h1))
      rw [← heq] at h2
      exact stripUrlChars_no_newline origin.data (restChars_subset _ h2)
  case _ => exact absurd hp (by simp)

/-- Declarative wildcard-domain semantics: the host is the pattern's literal
pieces (the parts around the `*`s) in order, with a nonempty dot-free string
standing for each `*`. -/
inductive WildHost : List (List Char) → List Char → Prop
  | last (p : List Char) : WildHost [p] p
  | step {p : List Char} {ps : List (List Char)} {w cs : List Char} :
      w ≠ [] → (∀ c ∈ w, c ≠ '.') → WildHost ps cs → WildHost (p :: ps) (p ++ (w ++ cs))

theorem originSegs_single (p : List Char) : originSegs [p] = [Seg.lit p] := rfl

theorem originSegs_pair (p q : List Char) (ps : List (List Char)) :
    originSegs (p :: q :: ps) = Seg.lit p :: Seg.cap "w" nonDot :: originSegs (q :: ps) := rfl

theorem decomp_originSegs_iff :
    ∀ (pieces : List (List Char)) (cs : List Char), pieces ≠ [] → '\n' ∉ cs →
      (Decomp (originSegs pieces) cs ↔ WildHost pieces cs) := by
  intro pieces
  induction pieces with
  | nil => exact fun cs h => absurd rfl h
  | cons p ps ih =>
    intro cs hne hnl
    cases ps with
    | nil =>
      rw [originSegs_single]
      constructor
      · intro hd
        cases hd with
        | lit hrest =>
          cases hrest with
          | nil =>
            have := WildHost.last p
            simpa using this
          | nl => exact absurd (by simp) hnl
      · intro hw
        cases hw with
        | last =>
          have : Decomp [Seg.lit p] (p ++ []) := Decomp.lit Decomp.nil
          simpa using this
        | step hwne hdot hw2 => cases hw2
    | cons q ps2 =>
      rw [originSegs_pair]
      constructor
      · intro hd
        cases hd with
        | lit hrest =>
          cases hrest with
          | cap hwne hok hd2 =>
            rename_i w cs3
            have hnl3 : '\n' ∉ cs3 := fun hin => hnl (by simp [hin])
            refine WildHost.step hwne ?_ ((ih cs3 (by simp) hnl3).mp hd2)
            intro c hc
            have := hok c hc
            simpa [nonDot] using this
      · intro hw
        cases hw with
        | step hwne hdot hw2 =>
          rename_i w cs2
          have hnl2 : '\n' ∉ cs2 := fun hin => hnl (by simp [hin])
          refine Decomp.lit (Decomp.cap hwne ?_ ((ih cs2 (by simp) hnl2).mpr hw2))
          intro c hc
          simpa [nonDot] using hdot c hc

theorem splitOnChar_ne_nil (sep : Char) (cs : List Char) : splitOnChar sep cs ≠ [] := by
  cases cs with
  | nil => simp [splitOnChar]
  | cons c rest =>
    simp only [splitOnChar]
    split
    · simp
    · split <;> simp

theorem wild_match_iff (pieces : List (List Char)) (host : List Char)
    (hne : pieces ≠ []) (hnl : '\n' ∉ host) :
    (matchSegs (originSegs pieces) host).isSome = true ↔ WildHost pieces host :=
  (matchSegs_isSome_iff _ _).trans (decomp_originSegs_iff pieces host hne hnl)

/-- Claim C6: for every configured origin set, an origin whose URL parses to a
scheme and hostname is allowed iff its scheme is http or https and its
hostname (lowercased) either equals a configured literal domain (stripped and
lowercased — case-insensitive comparison) or decomposes against a configured
wildcard pattern with each `*` standing for exactly one nonempty dot-free
stretch: `*.example.com` matches `api.example.com` but neither
`a.b.example.com` nor `example.com` itself. -/
theorem c6_origin_policy (app : WsgiApp) (origin scheme host : String)
    (hp : parseOrigin origin = (scheme, some host)) :
    allows_origin app origin = true ↔
      ((scheme = "http" ∨ scheme = "https") ∧
        ((∃ d ∈ app.allowed_origins, hasStar d = false ∧ lowerStr (stripWS d) = host) ∨
          (∃ d ∈ app.allowed_origins, hasStar d = true ∧
            WildHost (splitOnChar '*' (lowerStr (stripWS d)).data) host.data))) := by
  have hnl : '\n' ∉ host.data := parseOrigin_no_newline origin scheme host hp
  have hlit_iff : memStr host (originLiterals app.allowed_origins) = true ↔
      ∃ d ∈ app.allowed_origins, hasStar d = false ∧ lowerStr (stripWS d) = host := by
    simp only [memStr, originLiterals, List.any_eq_true, List.mem_map, List.mem_filter,
      Bool.not_eq_true', beq_iff_eq]
    constructor
    · rintro ⟨y, ⟨d, ⟨hd, hstar⟩, rfl⟩, rfl⟩
      exact ⟨d, hd, hstar, rfl⟩
    · rintro ⟨d, hd, hstar, heq⟩
      exact ⟨lowerStr (stripWS d), ⟨d, ⟨hd, hstar⟩, rfl⟩, heq.symm⟩
  have hpat_iff : ((originPieces app.allowed_origins).any
      (fun pieces => (matchSegs (originSegs pieces) host.data).isSome)) = true ↔
      ∃ d ∈ app.allowed_origins, hasStar d = true ∧
        WildHost (splitOnChar '*' (lowerStr (stripWS d)).data) host.data := by
    simp only [originPieces, List.any_eq_true, List.mem_map, List.mem_filter]
    constructor
    · rintro ⟨pieces, ⟨d, ⟨hd, hstar⟩, rfl⟩, hm⟩
      exact ⟨d, hd, hstar, (wild_match_iff _ _ (splitOnChar_ne_nil _ _) hnl).mp hm⟩
    · rintro ⟨d, hd, hstar, hw⟩
      exact ⟨_, ⟨d, ⟨hd, hstar⟩, rfl⟩, (wild_match_iff _ _ (splitOnChar_ne_nil _ _) hnl).mpr hw⟩
  unfold allows_origin
  rw [hp]
  by_cases hsch : (scheme == "http" || scheme == "https") = true
  · simp only [hsch, Bool.not_true, Bool.false_eq_true, if_false]
    have hschp : scheme = "http" ∨ scheme = "https" := by simpa using hsch
    by_cases hlit : memStr host (originLiterals app.allowed_origins) = true
    · rw [if_pos hlit]
      exact iff_of_true rfl ⟨hschp, Or.inl (hlit_iff.mp hlit)⟩
    · rw [if_neg hlit]
      rw [hpat_iff]
      constructor
      · intro hw
        exact ⟨hschp, Or.inr hw⟩
      · rintro ⟨-, hlit2 | hw⟩
        · exact absurd (hlit_iff.mpr hlit2) hlit
        · exact hw
  · simp only [hsch]
    simp only [Bool.not_false, if_true]
    refine iff_of_false (by simp) ?_
    rintro ⟨hschp, -⟩
    apply hsch
    simpa using hschp

/-- Apps used by the origin-policy witness: one with only the wildcard
pattern `*.example.com`, one with only the literal `example.com`. -/
def wildApp : WsgiApp := ⟨[], [], ["*.example.com"], [], []⟩

def litApp : WsgiApp := ⟨[], [], ["example.com"], [], []⟩

/-- Witness for `c6_origin_policy` at `https://api.example.com` against the
wildcard configuration, plus the claim's concrete examples evaluated:
the wildcard allows `api.example.com` but not `a.b.example.com` nor
`example.com`; the literal configuration does not allow `api.example.com`. -/
theorem c6_origin_policy_witness :
    (allows_origin wildApp "https://api.example.com" = true ↔
      (("https" : String) = "http" ∨ ("https" : String) = "https") ∧
        ((∃ d ∈ wildApp.allowed_origins, hasStar d = false ∧
            lowerStr (stripWS d) = "api.example.com") ∨
          (∃ d ∈ wildApp.allowed_origins, hasStar d = true ∧
            WildHost (splitOnChar '*' (lowerStr (stripWS d)).data)
              "api.example.com".data))) ∧
      allows_origin wildApp "https://api.example.com" = true ∧
      allows_origin litApp "https://api.example.com" = false ∧
      allows_origin wildApp "https://a.b.example.com" = false ∧
      allows_origin wildApp "https://example.com" = false :=
  ⟨c6_origin_policy wildApp "https://api.example.com" "https" "api.example.com" rfl,
    rfl, rfl, rfl, rfl⟩

/-! ### Claim C7 -/

/-- Codec, environment and handler-table fixtures for witnesses. -/
def demoCodec : Codec := ⟨fun _ => JVal.null, fun _ _ => DeRes.ok none⟩

def demoEnv : Environ := ⟨"POST", "/", "", Body.empty, none⟩

def demoHandlers : Handlers := ⟨fun _ => HandlerAttr.absent⟩

/-- Claim C7: the handler's return value is accepted iff it is null and the
declared return type is nullable (the `NoneType` or an optional type), or
encoding then decoding it against the declared return type succeeds; on
acceptance the encoded result is returned as the 200 response body, and
otherwise a 500 response is produced whose message is the specific
null-for-non-optional message when the result is null and the general
wrong-shape message otherwise — two distinct messages. -/
theorem c7_return_validation (cod : Codec) (env : Environ) (sm : String)
    (t : Ty) (result : Option Val) :
    (check_return_type cod t result = true ↔
      ((result = none ∧ (t.isNoneType = true ∨ t.optional = true)) ∨
        (result ≠ none ∧ (cod.de t (cod.ser result)).isOk = true))) ∧
    (check_return_type cod t result = true →
      checkAndRespond cod env sm t result = raw_response 200 (cod.ser result)) ∧
    (check_return_type cod t result = false →
      checkAndRespond cod env sm t result =
        errorResp 500 env (some (if result.isNone then noneForNonOptionalMsg sm
          else wrongTypeMsg sm t))) ∧
    noneForNonOptionalMsg "find_user" ≠ wrongTypeMsg "find_user" t0 := by
  refine ⟨?_, ?_, ?_, by decide⟩
  · cases result with
    | none =>
      simp only [check_return_type]
      constructor
      · intro h
        exact Or.inl ⟨by trivial, by simpa using h⟩
      · rintro (⟨-, h⟩ | ⟨hne, -⟩)
        · simpa using h
        · exact absurd rfl hne
    | some v =>
      simp only [check_return_type]
      cases hde : cod.de t (cod.ser (some v)) with
      | fail =>
        simp only [Bool.false_eq_true, false_iff]
        rintro (⟨h, -⟩ | ⟨-, h⟩)
        · exact absurd h (by simp)
        · exact absurd h (by simp [DeRes.isOk])
      | ok w =>
        simp only [true_iff]
        exact Or.inr ⟨by simp, rfl⟩
  · intro h
    unfold checkAndRespond
    rw [if_pos h]
  · intro h
    unfold checkAndRespond
    rw [if_neg (by simp [h])]

/-- Witness for `c7_return_validation` at a concrete codec, environment,
method name, type and result. -/
theorem c7_return_validation_witness :
    (check_return_type demoCodec t0 (some 3) = true ↔
      ((some 3 = (none : Option Val) ∧ (t0.isNoneType = true ∨ t0.optional = true)) ∨
        ((some 3 : Option Val) ≠ none ∧
          (demoCodec.de t0 (demoCodec.ser (some 3))).isOk = true))) ∧
    (check_return_type demoCodec t0 (some 3) = true →
      checkAndRespond demoCodec demoEnv "find_user" t0 (some 3) =
        raw_response 200 (demoCodec.ser (some 3))) ∧
    (check_return_type demoCodec t0 (some 3) = false →
      checkAndRespond demoCodec demoEnv "find_user" t0 (some 3) =
        errorResp 500 demoEnv (some (if (some 3 : Option Val).isNone then
          noneForNonOptionalMsg "find_user" else wrongTypeMsg "find_user" t0))) ∧
    noneForNonOptionalMsg "find_user" ≠ wrongTypeMsg "find_user" t0 :=
  c7_return_validation demoCodec demoEnv "find_user" t0 (some 3)

/-! ### Route-level helper lemmas -/

theorem corsCommon_eq_append (app : WsgiApp) (env : Environ)
    (cors1 : List (String × String)) :
    ∃ extra, corsCommon app env cors1 = cors1 ++ extra ∧
      ∀ p ∈ extra, p.1 = "Access-Control-Allow-Headers"
        ∨ p.1 = "Access-Control-Allow-Origin" := by
  unfold corsCommon
  rcases henv : env.origin with - | o <;> simp only [henv]
  · by_cases hh : (!(allowedHeadersJoined app.allowed_headers).isEmpty) = true
    · rw [if_pos hh]
      refine ⟨_, rfl, ?_⟩
      intro p hp
      simp only [List.mem_singleton] at hp
      subst hp
      exact Or.inl rfl
    · rw [if_neg hh]
      exact ⟨[], by simp, by simp⟩
  · by_cases hh : (!(allowedHeadersJoined app.allowed_headers).isEmpty) = true
    · rw [if_pos hh]
      by_cases ha : allows_origin app o = true
      · rw [if_pos ha]
        refine ⟨_, List.append_assoc _ _ _, ?_⟩
        intro p hp
        rcases List.mem_append.mp hp with h1 | h1 <;> simp only [List.mem_singleton] at h1 <;>
          subst h1
        · exact Or.inl rfl
        · exact Or.inr rfl
      · rw [if_neg ha]
        refine ⟨_, rfl, ?_⟩
        intro p hp
        simp only [List.mem_singleton] at hp
        subst hp
        exact Or.inl rfl
    · rw [if_neg hh]
      by_cases ha : allows_origin app o = true
      · rw [if_pos ha]
        refine ⟨_, rfl, ?_⟩
        intro p hp
        simp only [List.mem_singleton] at hp
        subst hp
        exact Or.inr rfl
      · rw [if_neg ha]
        exact ⟨[], by simp, by simp⟩

theorem dispatchCore_cors (app : WsgiApp) (env : Environ)
    (mr : Option PathMatch × Option (List String)) (sm : Option String)
    (payload : List (String × JVal)) (cors1 : List (String × String))
    (heq : dispatchCore app env mr = .ok (sm, payload, cors1)) :
    ∃ amv, cors1 = [("Vary", "Origin"), ("Access-Control-Allow-Methods", amv)] := by
  unfold dispatchCore at heq
  repeat' split at heq
  all_goals first
    | (simp only [Except.ok.injEq, Prod.mk.injEq] at heq
       obtain ⟨-, -, rfl⟩ := heq
       exact ⟨_, rfl⟩)
    | exact absurd heq (by simp)

theorem dispatchCore_matched_ok (app : WsgiApp) (env : Environ)
    (mr : Option PathMatch × Option (List String)) (pm : PathMatch)
    (hmr : mr.1 = some pm) (hbody : ∀ raw, env.body ≠ Body.malformed raw) :
    ∃ payload, dispatchCore app env mr = .ok (some pm.method_name, payload,
      [("Vary", "Origin"),
        ("Access-Control-Allow-Methods", joinComma ((mr.2.getD []) ++ ["OPTIONS"]))]) := by
  unfold dispatchCore
  rw [hmr]
  dsimp only
  by_cases hv : (pm.verb == "GET" || pm.verb == "DELETE") = true
  · rw [if_pos hv]
    exact ⟨_, rfl⟩
  · rw [if_neg hv]
    cases hb : env.body with
    | empty => exact ⟨_, rfl⟩
    | malformed raw => exact absurd hb (hbody raw)
    | jsonObj fs => exact ⟨_, rfl⟩

theorem dispatchCore_fallback_ok (app : WsgiApp) (env : Environ)
    (mr : Option PathMatch × Option (List String)) (hmr : mr.1 = none)
    (hpost : env.request_method = "POST")
    (hbody : ∀ raw, env.body ≠ Body.malformed raw) :
    ∃ fs, dispatchCore app env mr = .ok (argsGet env.query_string "method", fs,
      [("Vary", "Origin"), ("Access-Control-Allow-Methods", "POST, OPTIONS")]) := by
  unfold dispatchCore
  rw [hmr]
  dsimp only
  rw [if_neg (by simp [hpost])]
  cases hb : env.body with
  | empty => exact ⟨_, rfl⟩
  | malformed raw => exact absurd hb (hbody raw)
  | jsonObj fs => exact ⟨_, rfl⟩

theorem checkAndRespond_headers (cod : Codec) (env : Environ) (sm : String)
    (t : Ty) (r : Option Val) :
    (checkAndRespond cod env sm t r).headers = [("Content-type", "application/json")] := by
  unfold checkAndRespond
  split <;> rfl

theorem rpc_resp_headers (app : WsgiApp) (cod : Codec) (hnd : Handlers)
    (env : Environ) (sm : String) (pj : List (String × JVal)) (r : Resp)
    (h : rpc app cod hnd env sm pj = .resp r) :
    r.headers = [("Content-type", "application/json")] := by
  unfold rpc at h
  dsimp only at h
  repeat' split at h
  all_goals first
    | exact absurd h (fun hcon => RpcOut.noConfusion hcon)
    | (simp only [RpcOut.resp.injEq] at h
       rw [← h]
       first
         | rfl
         | exact checkAndRespond_headers cod env sm _ _)

theorem mergeStep_mem_vary (hs : List (String × String)) (kv : String × String)
    (hmem : ("Vary", "Origin") ∈ hs) (hk : kv.1 ≠ "Vary") :
    ("Vary", "Origin") ∈ mergeStep hs kv := by
  unfold mergeStep
  split
  · apply List.mem_map.mpr
    refine ⟨("Vary", "Origin"), hmem, ?_⟩
    rw [if_neg]
    simp only [beq_iff_eq]
    exact fun h2 => hk h2.symm
  · exact List.mem_append_left _ hmem

theorem mergeCors_mem_vary (cors : List (String × String)) :
    ∀ hs, ("Vary", "Origin") ∈ hs → (∀ p ∈ cors, p.1 ≠ "Vary") →
      ("Vary", "Origin") ∈ mergeCors hs cors := by
  induction cors with
  | nil =>
    intro hs h _
    exact h
  | cons kv rest ih =>
    intro hs hmem hk
    have hstep : mergeCors hs (kv :: rest) = mergeCors (mergeStep hs kv) rest := rfl
    rw [hstep]
    exact ih (mergeStep hs kv) (mergeStep_mem_vary hs kv hmem (hk kv (by simp)))
      (fun p hp => hk p (List.mem_cons_of_mem _ hp))

/-! ### Claim C5 -/

def mItems : MethodDef := ⟨"create", some ("/items/{id}", "POST"), [⟨"id", "id", t0⟩], t0⟩

def itemsRule : Rule :=
  ⟨"/items/{id}", ⟨[Seg.lit "/items/".data, Seg.cap "id" reDot, Seg.lit []], [], ["id"]⟩,
    "POST", "create"⟩

def postApp : WsgiApp := ⟨[mItems], [("create", "create")], [], [], [itemsRule]⟩

def envOptBad : Environ := ⟨"OPTIONS", "/items/5", "", Body.malformed "notjson", none⟩

def envOpt : Environ := ⟨"OPTIONS", "/items/5", "", Body.empty, none⟩

/-- Claim C5 counterexample: `/items/5` is bound (by the POST rule for
`/items/{id}`), yet the OPTIONS request carrying a malformed body is answered
400 with the invalid-JSON error envelope, not 200 with an empty body, because
the selected rule's verb is not GET/DELETE and the body is parsed before the
OPTIONS short-circuit. -/
theorem c5_counterexample :
    buildRules [mItems] = .ok [itemsRule] ∧
      (match_request postApp.rules "OPTIONS" "/items/5" "").1.isSome = true ∧
      (route postApp demoCodec demoHandlers envOptBad).status = 400 ∧
      (route postApp demoCodec demoHandlers envOptBad).body =
        some (make_error_response "bad_request"
          (some (.str "Invalid JSON payload: 'notjson'."))) :=
  ⟨rfl, rfl, rfl, rfl⟩

/-- Claim C5 (amended): an OPTIONS request to a path bound by at least one
rule whose body is empty or valid JSON is answered immediately with status
200, an empty body, and an Access-Control-Allow-Methods header joining the
verbs of all candidate rules for that path (in iteration order) plus OPTIONS,
without invoking any procedure handler or the codec. -/
theorem c5_options_short_circuit (app : WsgiApp) (cod : Codec) (hnd : Handlers)
    (env : Environ) (pm : PathMatch)
    (hm : env.request_method = "OPTIONS")
    (hmatch : (match_request app.rules env.request_method env.path_info
      env.query_string).1 = some pm)
    (hbody : ∀ raw, env.body ≠ Body.malformed raw) :
    (route app cod hnd env).status = 200 ∧
    (route app cod hnd env).body = none ∧
    ("Access-Control-Allow-Methods",
        joinComma (((match_request app.rules env.request_method env.path_info
          env.query_string).2.getD []) ++ ["OPTIONS"]))
      ∈ (route app cod hnd env).headers ∧
    (∀ cod2 hnd2, route app cod hnd env = route app cod2 hnd2 env) := by
  obtain ⟨payload, hcore⟩ := dispatchCore_matched_ok app env _ pm hmatch hbody
  have hdisp : dispatch_method app env = .ok
      ⟨(match_request app.rules env.request_method env.path_info
          env.query_string).1.isSome,
        some pm.method_name, payload,
        corsCommon app env [("Vary", "Origin"),
          ("Access-Control-Allow-Methods",
            joinComma (((match_request app.rules env.request_method env.path_info
              env.query_string).2.getD []) ++ ["OPTIONS"]))]⟩ := by
    unfold dispatch_method
    dsimp only
    rw [hcore]
  have hroute : ∀ (c : Codec) (h : Handlers), route app c h env =
      ⟨200, corsCommon app env [("Vary", "Origin"),
        ("Access-Control-Allow-Methods",
          joinComma (((match_request app.rules env.request_method env.path_info
            env.query_string).2.getD []) ++ ["OPTIONS"]))], none⟩ := by
    intro c h
    unfold route
    rw [hdisp]
    dsimp only
    rw [if_pos (by simp [hm])]
  refine ⟨by rw [hroute], by rw [hroute], ?_, fun cod2 hnd2 => by rw [hroute, hroute]⟩
  rw [hroute]
  obtain ⟨extra, hext, -⟩ := corsCommon_eq_append app env _
  rw [hext]
  simp

/-- Witness for `c5_options_short_circuit`: OPTIONS to the bound path
`/items/5` with an empty body. -/
theorem c5_options_short_circuit_witness :
    (route postApp demoCodec demoHandlers envOpt).status = 200 ∧
    (route postApp demoCodec demoHandlers envOpt).body = none ∧
    ("Access-Control-Allow-Methods",
        joinComma (((match_request postApp.rules envOpt.request_method
          envOpt.path_info envOpt.query_string).2.getD []) ++ ["OPTIONS"]))
      ∈ (route postApp demoCodec demoHandlers envOpt).headers ∧
    (∀ cod2 hnd2, route postApp demoCodec demoHandlers envOpt =
      route postApp cod2 hnd2 envOpt) :=
  c5_options_short_circuit postApp demoCodec demoHandlers envOpt
    ⟨[("id", "5")], "POST", "create"⟩ rfl rfl (fun raw h => Body.noConfusion h)

/-! ### Claim C9 -/

def emptyApp : WsgiApp := ⟨[], [], [], [], []⟩

def envGetX : Environ := ⟨"GET", "/x", "", Body.empty, none⟩

/-- Claim C9 counterexample: the 405 error response for `GET /x` (no route,
method outside the fallback set) carries only the Content-type header — no
`Vary: Origin` — because the CORS headers are merged only into responses
produced by a successful dispatch, never into `error()` responses. -/
theorem c9_counterexample :
    (route emptyApp demoCodec demoHandlers envGetX).status = 405 ∧
      (route emptyApp demoCodec demoHandlers envGetX).headers =
        [("Content-type", "application/json")] ∧
      ("Vary", "Origin") ∉ (route emptyApp demoCodec demoHandlers envGetX).headers :=
  ⟨rfl, rfl, by decide⟩

/-- Claim C9 (amended): `Vary: Origin` is carried by the OPTIONS
short-circuit response and by every response produced through an actual rpc
invocation (success, declared error, argument errors, or 500); the
dispatch-level error responses (405, invalid JSON 400, missing-method 400,
unknown-method 404/400) do not carry it. -/
theorem c9_vary_on_dispatched (app : WsgiApp) (cod : Codec) (hnd : Handlers)
    (env : Environ) (md : MethodDispatch)
    (hd : dispatch_method app env = .ok md)
    (hcase : env.request_method = "OPTIONS" ∨
      (∃ sm, md.service_method = some sm ∧ sm ≠ "" ∧
        (app.behind_names.find? (fun p => p.1 == sm)).isSome = true)) :
    ("Vary", "Origin") ∈ (route app cod hnd env).headers := by
  have hcors : ∃ tail, md.cors_headers = ("Vary", "Origin") :: tail ∧
      ∀ p ∈ tail, p.1 ≠ "Vary" := by
    unfold dispatch_method at hd
    dsimp only at hd
    split at hd
    · exact absurd hd (fun hcon => Except.noConfusion hcon)
    case _ sm payload cors1 heqcore =>
      obtain ⟨amv, rfl⟩ := dispatchCore_cors app env _ sm payload cors1 heqcore
      simp only [Except.ok.injEq] at hd
      subst hd
      obtain ⟨extra, hext, hkeys⟩ := corsCommon_eq_append app env _
      refine ⟨("Access-Control-Allow-Methods", amv) :: extra, by simpa using hext, ?_⟩
      intro p hp
      rcases List.mem_cons.mp hp with rfl | hp2
      · simp
      · rcases hkeys p hp2 with h1 | h1 <;> simp [h1]
  obtain ⟨tail, htl, hkeys⟩ := hcors
  unfold route
  rw [hd]
  dsimp only
  by_cases hopt : (env.request_method == "OPTIONS") = true
  · rw [if_pos hopt]
    rw [htl]
    exact List.mem_cons_self _ _
  · rw [if_neg hopt]
    rcases hcase with hO | ⟨sm, hsm, hne, hfind⟩
    · exact absurd (by simp [hO]) hopt
    · rw [hsm]
      dsimp only
      rw [if_neg (by simp [hne])]
      cases hr : rpc app cod hnd env sm md.payload with
      | methodErr =>
        obtain ⟨pr, hpr⟩ := Option.isSome_iff_exists.mp hfind
        unfold rpc at hr
        rw [hpr] at hr
        dsimp only at hr
        repeat' split at hr
        all_goals exact absurd hr (fun hcon => RpcOut.noConfusion hcon)
      | resp r =>
        have hrh := rpc_resp_headers app cod hnd env sm md.payload r hr
        dsimp only
        rw [hrh, htl]
        have hstep : mergeCors [("Content-type", "application/json")]
            (("Vary", "Origin") :: tail)
            = mergeCors (mergeStep [("Content-type", "application/json")]
              ("Vary", "Origin")) tail := rfl
        rw [hstep]
        exact mergeCors_mem_vary tail _ (by decide) hkeys

/-- Witness for `c9_vary_on_dispatched`: OPTIONS to the bound `/items/5`. -/
theorem c9_vary_on_dispatched_witness :
    ("Vary", "Origin") ∈ (route postApp demoCodec demoHandlers envOpt).headers :=
  c9_vary_on_dispatched postApp demoCodec demoHandlers envOpt
    ⟨true, some "create", [("id", JVal.str "5")],
      [("Vary", "Origin"), ("Access-Control-Allow-Methods", "POST, OPTIONS")]⟩
    rfl (Or.inl rfl)

/-! ### Claim C10 -/

def envPostBad : Environ := ⟨"POST", "/", "", Body.malformed "notjson", none⟩

def envPostRoot : Environ := ⟨"POST", "/", "", Body.empty, none⟩

/-- Claim C10 counterexample: a fallback POST without a `method` query
parameter but with a malformed JSON body is answered 400 with the
invalid-JSON message, not with "`method` is missing." as the claim states. -/
theorem c10_counterexample :
    (route emptyApp demoCodec demoHandlers envPostBad).status = 400 ∧
      (route emptyApp demoCodec demoHandlers envPostBad).body =
        some (make_error_response "bad_request"
          (some (.str "Invalid JSON payload: 'notjson'."))) ∧
      ("Invalid JSON payload: 'notjson'." : String) ≠ "`method` is missing." :=
  ⟨rfl, rfl, by decide⟩

/-- Claim C10 (amended): a fallback request (no route matched, method POST)
whose body is empty or valid JSON and whose query string carries no `method`
parameter is answered 400 with the message "`method` is missing." without
invoking any procedure handler or the codec. -/
theorem c10_fallback_missing_method (app : WsgiApp) (cod : Codec) (hnd : Handlers)
    (env : Environ)
    (hnm : (match_request app.rules env.request_method env.path_info
      env.query_string).1 = none)
    (hpost : env.request_method = "POST")
    (hargs : argsGet env.query_string "method" = none)
    (hbody : ∀ raw, env.body ≠ Body.malformed raw) :
    route app cod hnd env = errorResp 400 env (some "`method` is missing.") ∧
    (∀ cod2 hnd2, route app cod hnd env = route app cod2 hnd2 env) := by
  obtain ⟨fs, hcore⟩ := dispatchCore_fallback_ok app env _ hnm hpost hbody
  have hdisp : dispatch_method app env = .ok
      ⟨(match_request app.rules env.request_method env.path_info
          env.query_string).1.isSome,
        argsGet env.query_string "method", fs,
        corsCommon app env [("Vary", "Origin"),
          ("Access-Control-Allow-Methods", "POST, OPTIONS")]⟩ := by
    unfold dispatch_method
    dsimp only
    rw [hcore]
  have hroute : ∀ (c : Codec) (h : Handlers),
      route app c h env = errorResp 400 env (some "`method` is missing.") := by
    intro c h
    unfold route
    rw [hdisp]
    dsimp only
    rw [if_neg (by simp [hpost])]
    rw [hargs]
  exact ⟨hroute cod hnd, fun c2 h2 => (hroute cod hnd).trans (hroute c2 h2).symm⟩

/-- Witness for `c10_fallback_missing_method`: POST to the root with an empty
body and no query string. -/
theorem c10_fallback_missing_method_witness :
    route emptyApp demoCodec demoHandlers envPostRoot =
      errorResp 400 envPostRoot (some "`method` is missing.") ∧
    (∀ cod2 hnd2, route emptyApp demoCodec demoHandlers envPostRoot =
      route emptyApp cod2 hnd2 envPostRoot) :=
  c10_fallback_missing_method emptyApp demoCodec demoHandlers envPostRoot
    rfl rfl rfl (fun raw h => Body.noConfusion h)

end NirumWsgi
